import Mathlib

/-!
Verification of the MLST-to-PhyloViz conversion pipeline
(`convert_mlst_to_phyloviz.py`).

Tables are modelled as lists of rows whose cells are strings, exactly as
read from the tab-separated input.  The numeric coercion of locus cells
(`str.replace('[a-zA-Z()]', '')` followed by `pandas.to_numeric` with
`errors='coerce'`) is modelled over `ℚ` (pandas parses both integers and
decimal fractions), and the final `astype('int32')` cast of the clean
locus columns is modelled as truncation toward zero followed by
two's-complement wrap-around into the 32-bit signed range.  The
best-effort `astype(..., errors='ignore')` on the failed table is a
no-op on designation strings such as `gene(12)` and is therefore not
modelled: the failed table keeps the original rows.
-/

namespace MlstToPhyloviz

/-- Row of the typed table: `file`, `scheme`, `ST`, then the locus cells. -/
structure Row where
  file : String
  scheme : String
  st : String
  loci : List String
deriving DecidableEq, Repr

/-- Row of the clean output table: locus columns cast to 32-bit integers. -/
structure CleanRow where
  file : String
  scheme : String
  st : String
  loci : List Int
deriving DecidableEq, Repr

/-- Character class of the regex `[a-zA-Z()]` used by
`str.replace('[a-zA-Z()]', '')`: ASCII letters and parentheses. -/
def strippedChar (c : Char) : Bool :=
  (65 ≤ c.toNat && c.toNat ≤ 90) || (97 ≤ c.toNat && c.toNat ≤ 122) ||
    c.toNat == 40 || c.toNat == 41

/-- Delete every letter and parenthesis from a cell
(`str.replace('[a-zA-Z()]', '')`). -/
def stripCell (s : String) : String :=
  ⟨s.data.filter (fun c => !strippedChar c)⟩

/-- ASCII decimal digit. -/
def digitChar (c : Char) : Bool :=
  48 ≤ c.toNat && c.toNat ≤ 57

/-- Whitespace accepted (and skipped) by the pandas numeric tokenizer. -/
def spaceChar (c : Char) : Bool :=
  c.toNat == 32 || c.toNat == 9 || c.toNat == 10 || c.toNat == 13 ||
    c.toNat == 11 || c.toNat == 12

/-- Value of a list of decimal digit characters, most significant first. -/
def digitsVal (cs : List Char) : Nat :=
  cs.foldl (fun a c => 10 * a + (c.toNat - 48)) 0

/-- Remove leading and trailing whitespace. -/
def trimWS (cs : List Char) : List Char :=
  ((cs.dropWhile spaceChar).reverse.dropWhile spaceChar).reverse

/-- Split an optional leading sign (`-` is 45, `+` is 43); returns
(negative?, remaining characters). -/
def splitSign : List Char → Bool × List Char
  | [] => (false, [])
  | c :: t =>
    if c.toNat == 45 then (true, t)
    else if c.toNat == 43 then (false, t)
    else (false, c :: t)

/-- Model of `pandas.to_numeric(..., errors='coerce')` on one cell after
stripping: optional whitespace and sign, then decimal digits with an
optional fractional part (`12`, `-3`, `1.5`, `12.`, `.5`); anything else
is a parse failure (`None`, i.e. `NaN`).  Scientific notation is
unreachable because the letter `e` is always stripped first. -/
def parseNumQ (s : String) : Option ℚ :=
  let cs := trimWS s.data
  let p := splitSign cs
  let ip := p.2.takeWhile digitChar
  let rest := p.2.dropWhile digitChar
  let mag : Option ℚ :=
    match rest with
    | [] => if ip.isEmpty then none else some (digitsVal ip)
    | c :: fp =>
      if c.toNat == 46 && fp.all digitChar && !(ip.isEmpty && fp.isEmpty) then
        some ((digitsVal ip : ℚ) + (digitsVal fp : ℚ) / (10 : ℚ) ^ fp.length)
      else none
  mag.map (fun v => if p.1 then -v else v)

/-- Per-cell coercion of the allele validator (lines 175-176 of the
source): strip letters and parentheses, then numeric-parse; `none`
models `NaN`. -/
def coerceCell (s : String) : Option ℚ :=
  parseNumQ (stripCell s)

/-- Two's-complement wrap-around into the signed 32-bit range, the
behaviour of `astype('int32')` on an out-of-range integer. -/
def wrap32 (v : Int) : Int :=
  (v + 2 ^ 31) % 2 ^ 32 - 2 ^ 31

/-- Truncation toward zero of a rational, the C-cast float-to-int
behaviour used by `astype('int32')` on a float column. -/
def ratTrunc (q : ℚ) : Int :=
  q.num.tdiv q.den

/-- Int32 value a coerced cell receives in the clean table. -/
def cellInt32 (s : String) : Int :=
  wrap32 (ratTrunc ((coerceCell s).getD 0))

/-- Clean-table image of a complete row: locus columns coerced and cast
to int32 (`astype(gene_dtypes)` with all genes mapped to `'int32'`). -/
def coerceRow (r : Row) : CleanRow :=
  ⟨r.file, r.scheme, r.st, r.loci.map cellInt32⟩

/-- Completeness test of the allele validator: `~filter_nan & ~filter_no_ST`,
i.e. every locus cell coerces (no `NaN` in columns 3 and later) and the
`ST` column is not the sentinel `-`. -/
def rowCompleteB (r : Row) : Bool :=
  r.loci.all (fun c => (coerceCell c).isSome) && !(r.st == "-")

/-- Model of `clean_dataframe_alleles` (lines 173-186): the clean table
keeps the coerced copies of the complete rows (cast to int32), the
failed table keeps the original rows that are not complete. -/
def clean_dataframe_alleles (df : List Row) : List CleanRow × List Row :=
  ((df.filter rowCompleteB).map coerceRow,
   df.filter (fun r => !rowCompleteB r))

/-- Replace one locus cell of a row. -/
def setLocus (r : Row) (i : Nat) (t : String) : Row :=
  { r with loci := r.loci.set i t }

/-- Model of `clean_dataframe_scheme` (lines 146-150): rows matching the
selected scheme, and the remaining rows except those whose scheme is the
sentinel `-`. -/
def clean_dataframe_scheme (df : List Row) (scheme : String) : List Row × List Row :=
  (df.filter (fun r => r.scheme == scheme),
   (df.filter (fun r => !(r.scheme == scheme))).filter (fun r => !(r.scheme == "-")))

/-- Rows dropped entirely by `clean_dataframe_scheme`: not matching the
selected scheme and bearing the sentinel scheme `-`. -/
def droppedSentinelRows (df : List Row) (scheme : String) : List Row :=
  (df.filter (fun r => !(r.scheme == scheme))).filter (fun r => r.scheme == "-")

/-- Shape test of `read_mlst_files` (lines 29-37): a file is used when it
is non-empty and parses to exactly one row with the expected number of
columns (`tmp_df.shape == (1, nr_cols)`); an empty file (`f = []`) is
skipped by the size check. -/
def usableFile (nrCols : Nat) (f : List (List String)) : Bool :=
  match f with
  | [row] => row.length == nrCols
  | _ => false

/-- Model of `read_mlst_files` (lines 27-41): keep the usable files and
concatenate their rows; `pd.concat` of an empty collection raises
`ValueError("No objects to concatenate")`, modelled as the error case. -/
def read_mlst_files (files : List (List (List String))) (nrLoci : Nat) :
    Except String (List (List String)) :=
  let dfList := files.filter (usableFile (nrLoci + 3))
  if dfList.isEmpty then Except.error "No objects to concatenate"
  else Except.ok dfList.flatten

/-- Distinct values in order of first appearance, the index order the
pandas hashtable produces for `value_counts` before sorting. -/
def uniqueFirst : List String → List String
  | [] => []
  | x :: t => x :: (uniqueFirst t).filter (fun y => !(y == x))

/-- Pair every distinct scheme value with its number of occurrences. -/
def valueCountsPairs (xs : List String) : List (String × Nat) :=
  (uniqueFirst xs).map (fun v => (v, xs.count v))

/-- Insert a pair into a count-descending list, after any pair with an
equal count (stable). -/
def insertDesc (p : String × Nat) : List (String × Nat) → List (String × Nat)
  | [] => [p]
  | q :: t => if q.2 < p.2 then p :: q :: t else q :: insertDesc p t

/-- Stable insertion sort by count, descending. -/
def sortCountsDesc (l : List (String × Nat)) : List (String × Nat) :=
  l.foldr insertDesc []

/-- Model of `dataframe['scheme'].value_counts()`: occurrence counts of
the scheme values, sorted by count in descending order. -/
def value_counts (xs : List String) : List (String × Nat) :=
  sortCountsDesc (valueCountsPairs xs)

/-- Failure modes of `select_scheme`: `valuecounts.index[0]` on an empty
table raises `IndexError`; `int(...)` on the empty selection produced by
an absent explicit scheme raises `TypeError`. -/
inductive SchemeError where
  | emptyTable : SchemeError
  | schemeNotFound : SchemeError
deriving DecidableEq, Repr

/-- Model of `select_scheme` (lines 90-125).  Returns the selected
scheme label together with the warning flag (`selected_pct < 75`); the
warning itself is a console diagnostic.  `total` is `sum(valuecounts)`
as in line 114. -/
def select_scheme (df : List Row) (scheme : Option String) :
    Except SchemeError (String × Bool) :=
  let vc := value_counts (df.map (fun r => r.scheme))
  let total : Nat := (vc.map (fun p => p.2)).sum
  let sel? : Option String :=
    match scheme with
    | none =>
      match vc with
      | [] => none
      | p :: _ => some p.1
    | some s => some s
  match sel? with
  | none => Except.error SchemeError.emptyTable
  | some sel =>
    match vc.find? (fun q => q.1 == sel) with
    | none => Except.error SchemeError.schemeNotFound
    | some q => Except.ok (sel, decide ((q.2 : ℚ) / (total : ℚ) * 100 < 75))

/-- Serialized table: a header row of column names and the data rows. -/
structure Table where
  header : List String
  rows : List (List String)
deriving DecidableEq, Repr

/-- Model of `df.drop(names, axis=1)`: remove every column whose name is
in `names`. -/
def dropColumns (t : Table) (names : List String) : Table :=
  { header := t.header.filter (fun h => !names.contains h),
    rows := t.rows.map (fun row =>
      ((t.header.zip row).filter (fun p => !names.contains p.1)).map (fun p => p.2)) }

/-- Model of the output stage of `main` (lines 197-203): when the
identification-columns flag is false the clean table loses its `file`
and `scheme` columns; the mismatched-scheme and failed-allele tables are
written unchanged. -/
def writeOutputs (clean mismatched failed : Table) (includeFilename : Bool) :
    Table × Table × Table :=
  (if includeFilename then clean else dropColumns clean ["file", "scheme"],
   mismatched, failed)

/-- Integer-only parse of a cell remainder, written to the words of the
specification ("parsing the remainder as an integer") for comparison
with the numeric parse the code performs: optional whitespace and sign,
then decimal digits only. -/
def specIntegerParse (s : String) : Option Int :=
  let cs := trimWS s.data
  let p := splitSign cs
  if !p.2.isEmpty && p.2.all digitChar then
    some (if p.1 then -(digitsVal p.2 : Int) else (digitsVal p.2 : Int))
  else none

/-- Locus designation `gene(alleleId)` assembled from a gene name and
the decimal digits of an allele id. -/
def mkCell (g ds : List Char) : String :=
  ⟨g ++ '(' :: (ds ++ [')'])⟩

/-- ASCII letter. -/
def alphaChar (c : Char) : Bool :=
  (65 ≤ c.toNat && c.toNat ≤ 90) || (97 ≤ c.toNat && c.toNat ≤ 122)

end MlstToPhyloviz

namespace MlstToPhyloviz

theorem string_mk_data (l : List Char) : (⟨l⟩ : String).data = l := rfl

theorem dropWhile_eq_self_of_mem_false {p : Char → Bool} :
    ∀ {l : List Char}, (∀ c ∈ l, p c = false) → l.dropWhile p = l := by
  intro l h
  cases l with
  | nil => rfl
  | cons a t => simp [List.dropWhile_cons, h a (List.mem_cons_self a t)]

theorem takeWhile_eq_self_of_mem_true {p : Char → Bool} :
    ∀ {l : List Char}, (∀ c ∈ l, p c = true) → l.takeWhile p = l := by
  intro l h
  induction l with
  | nil => rfl
  | cons a t ih =>
    simp [List.takeWhile_cons, h a (List.mem_cons_self a t),
      ih (fun c hc => h c (List.mem_cons_of_mem a hc))]

theorem dropWhile_eq_nil_of_mem_true {p : Char → Bool} :
    ∀ {l : List Char}, (∀ c ∈ l, p c = true) → l.dropWhile p = [] := by
  intro l h
  induction l with
  | nil => rfl
  | cons a t ih =>
    simp [List.dropWhile_cons, h a (List.mem_cons_self a t),
      ih (fun c hc => h c (List.mem_cons_of_mem a hc))]

theorem digit_not_space {c : Char} (h : digitChar c = true) : spaceChar c = false := by
  simp only [digitChar, Bool.and_eq_true, decide_eq_true_eq] at h
  simp only [spaceChar, Bool.or_eq_false_iff, beq_eq_false_iff_ne]
  omega

theorem digit_not_stripped {c : Char} (h : digitChar c = true) : strippedChar c = false := by
  simp only [digitChar, Bool.and_eq_true, decide_eq_true_eq] at h
  simp only [strippedChar, Bool.or_eq_false_iff, beq_eq_false_iff_ne, Bool.and_eq_false_iff,
    decide_eq_false_iff_not, not_le]
  omega

theorem alpha_stripped {c : Char} (h : alphaChar c = true) : strippedChar c = true := by
  simp only [alphaChar, Bool.or_eq_true, Bool.and_eq_true, decide_eq_true_eq] at h
  simp only [strippedChar, Bool.or_eq_true, Bool.and_eq_true, decide_eq_true_eq, beq_iff_eq]
  omega

theorem trimWS_of_digits {l : List Char} (h : ∀ c ∈ l, digitChar c = true) :
    trimWS l = l := by
  unfold trimWS
  rw [dropWhile_eq_self_of_mem_false (fun c hc => digit_not_space (h c hc)),
    dropWhile_eq_self_of_mem_false
      (fun c hc => digit_not_space (h c (List.mem_reverse.mp hc))),
    List.reverse_reverse]

theorem splitSign_of_digits {l : List Char} (h : ∀ c ∈ l, digitChar c = true) :
    splitSign l = (false, l) := by
  cases l with
  | nil => rfl
  | cons a t =>
    have ha := h a (List.mem_cons_self a t)
    simp only [digitChar, Bool.and_eq_true, decide_eq_true_eq] at ha
    have h45 : (a.toNat == 45) = false := by
      simp only [beq_eq_false_iff_ne]
      omega
    have h43 : (a.toNat == 43) = false := by
      simp only [beq_eq_false_iff_ne]
      omega
    simp [splitSign, h45, h43]

theorem parseNumQ_digits {ds : List Char} (h0 : ds ≠ [])
    (h : ∀ c ∈ ds, digitChar c = true) :
    parseNumQ ⟨ds⟩ = some ((digitsVal ds : ℚ)) := by
  have hne : ds.isEmpty = false := by
    cases ds with
    | nil => exact absurd rfl h0
    | cons a t => rfl
  simp only [parseNumQ, string_mk_data, trimWS_of_digits h, splitSign_of_digits h,
    takeWhile_eq_self_of_mem_true h, dropWhile_eq_nil_of_mem_true h, hne,
    Bool.false_eq_true, if_false, Option.map_some]
  simp

theorem stripCell_mkCell {g ds : List Char} (hg : ∀ c ∈ g, alphaChar c = true) :
    stripCell (mkCell g ds) = ⟨ds.filter (fun c => !strippedChar c)⟩ := by
  unfold stripCell mkCell
  congr 1
  rw [string_mk_data, List.filter_append]
  have h1 : g.filter (fun c => !strippedChar c) = [] := by
    refine List.filter_eq_nil_iff.mpr ?_
    intro c hc
    simp [alpha_stripped (hg c hc)]
  rw [h1, List.nil_append, List.filter_cons]
  have hop : (!strippedChar '(') = false := by decide
  rw [hop]
  simp only [Bool.false_eq_true, if_false, List.filter_append]
  have hcp : List.filter (fun c => !strippedChar c) [')'] = [] := by decide
  rw [hcp, List.append_nil]

theorem stripCell_mkCell_digits {g ds : List Char} (hg : ∀ c ∈ g, alphaChar c = true)
    (hd : ∀ c ∈ ds, digitChar c = true) :
    stripCell (mkCell g ds) = ⟨ds⟩ := by
  rw [stripCell_mkCell hg]
  congr 1
  refine List.filter_eq_self.mpr ?_
  intro c hc
  simp [digit_not_stripped (hd c hc)]

theorem coerce_mkCell {g ds : List Char} (hg : ∀ c ∈ g, alphaChar c = true)
    (h0 : ds ≠ []) (hd : ∀ c ∈ ds, digitChar c = true) :
    coerceCell (mkCell g ds) = some ((digitsVal ds : ℚ)) := by
  unfold coerceCell
  rw [stripCell_mkCell_digits hg hd]
  exact parseNumQ_digits h0 hd

theorem cellInt32_mkCell {g ds : List Char} (hg : ∀ c ∈ g, alphaChar c = true)
    (h0 : ds ≠ []) (hd : ∀ c ∈ ds, digitChar c = true)
    (hlt : digitsVal ds < 2 ^ 31) :
    cellInt32 (mkCell g ds) = (digitsVal ds : Int) := by
  unfold cellInt32
  rw [coerce_mkCell hg h0 hd]
  simp only [Option.getD_some]
  unfold ratTrunc
  rw [Rat.num_natCast, Rat.den_natCast]
  simp only [Nat.cast_one, Int.tdiv_one]
  unfold wrap32
  omega

theorem mem_uniqueFirst {v : String} : ∀ {l : List String}, v ∈ uniqueFirst l ↔ v ∈ l := by
  intro l
  induction l with
  | nil => simp [uniqueFirst]
  | cons x t ih =>
    simp only [uniqueFirst, List.mem_cons, List.mem_filter, ih, Bool.not_eq_true',
      beq_eq_false_iff_ne]
    constructor
    · rintro (rfl | ⟨hm, _⟩)
      · exact Or.inl rfl
      · exact Or.inr hm
    · rintro (rfl | hm)
      · exact Or.inl rfl
      · by_cases hvx : v = x
        · exact Or.inl hvx
        · exact Or.inr ⟨hm, hvx⟩

theorem nodup_uniqueFirst : ∀ (l : List String), (uniqueFirst l).Nodup := by
  intro l
  induction l with
  | nil => exact List.nodup_nil
  | cons x t ih =>
    refine List.nodup_cons.mpr ⟨?_, ih.filter _⟩
    intro hx
    have := (List.mem_filter.mp hx).2
    simp at this

theorem filter_beq_of_nodup (u : List String) (x : String) (h : u.Nodup) :
    u.filter (fun y => y == x) = if x ∈ u then [x] else [] := by
  induction u with
  | nil => simp
  | cons a u' ih =>
    obtain ⟨ha, h'⟩ := List.nodup_cons.mp h
    by_cases hax : a = x
    · subst hax
      have hu' : u'.filter (fun y => y == a) = [] := by
        refine List.filter_eq_nil_iff.mpr ?_
        intro y hy
        simp only [beq_iff_eq]
        intro hya
        exact ha (hya ▸ hy)
      simp [List.filter_cons, hu']
    · have hxa' : (a == x) = false := by simp [hax]
      simp only [List.filter_cons, hxa', Bool.false_eq_true, if_false, ih h']
      have : (x ∈ a :: u') ↔ (x ∈ u') := by
        simp only [List.mem_cons]
        constructor
        · rintro (rfl | hm)
          · exact absurd rfl hax
          · exact hm
        · exact Or.inr
      rw [if_congr this rfl rfl]

theorem sum_counts_uniqueFirst : ∀ (xs : List String),
    ((uniqueFirst xs).map (fun v => xs.count v)).sum = xs.length := by
  intro xs
  induction xs with
  | nil => rfl
  | cons x t ih =>
    simp only [uniqueFirst, List.map_cons, List.sum_cons, List.count_cons_self]
    have hmapeq : ((uniqueFirst t).filter (fun y => !(y == x))).map
        (fun v => (x :: t).count v)
        = ((uniqueFirst t).filter (fun y => !(y == x))).map (fun v => t.count v) := by
      refine List.map_congr_left ?_
      intro v hv
      have hvx : v ≠ x := by
        have := (List.mem_filter.mp hv).2
        simpa using this
      exact List.count_cons_of_ne hvx t
    rw [hmapeq]
    have hperm : List.Perm
        ((uniqueFirst t).filter (fun y => !(y == x))
          ++ (uniqueFirst t).filter (fun y => y == x)) (uniqueFirst t) := by
      have h0 := List.filter_append_perm (fun y => !(y == x)) (uniqueFirst t)
      have hc : (uniqueFirst t).filter (fun y => !!(y == x))
          = (uniqueFirst t).filter (fun y => y == x) :=
        List.filter_congr (fun y _ => Bool.not_not (y == x))
      rwa [hc] at h0
    have hsum := (hperm.map (fun v => t.count v)).sum_eq
    rw [List.map_append, List.sum_append] at hsum
    have hsingle : (((uniqueFirst t).filter (fun y => y == x)).map
        (fun v => t.count v)).sum = t.count x := by
      rw [filter_beq_of_nodup _ _ (nodup_uniqueFirst t)]
      by_cases hx : x ∈ uniqueFirst t
      · simp [hx]
      · have hx' : x ∉ t := fun hc => hx (mem_uniqueFirst.mpr hc)
        simp [hx, List.count_eq_zero.mpr hx']
    rw [hsingle] at hsum
    rw [ih] at hsum
    simp only [List.length_cons]
    omega

theorem insertDesc_perm (p : String × Nat) :
    ∀ (l : List (String × Nat)), List.Perm (insertDesc p l) (p :: l) := by
  intro l
  induction l with
  | nil => exact List.Perm.refl _
  | cons q t ih =>
    simp only [insertDesc]
    split
    · exact List.Perm.refl _
    · exact (ih.cons q).trans (List.Perm.swap p q t)

theorem sortCountsDesc_perm : ∀ (l : List (String × Nat)),
    List.Perm (sortCountsDesc l) l := by
  intro l
  induction l with
  | nil => exact List.Perm.refl _
  | cons x t ih =>
    simp only [sortCountsDesc, List.foldr_cons]
    exact (insertDesc_perm x _).trans (ih.cons x)

theorem mem_value_counts {xs : List String} {q : String × Nat}
    (h : q ∈ value_counts xs) : q.2 = xs.count q.1 ∧ q.1 ∈ xs := by
  have hm : q ∈ valueCountsPairs xs := (sortCountsDesc_perm _).mem_iff.mp h
  obtain ⟨v, hv, hq⟩ := List.mem_map.mp hm
  subst hq
  exact ⟨rfl, mem_uniqueFirst.mp hv⟩

theorem value_counts_total (xs : List String) :
    ((value_counts xs).map (fun p => p.2)).sum = xs.length := by
  have hperm := (sortCountsDesc_perm (valueCountsPairs xs)).map (fun p => p.2)
  unfold value_counts
  rw [hperm.sum_eq]
  unfold valueCountsPairs
  rw [List.map_map]
  exact sum_counts_uniqueFirst xs

theorem find?_value_counts_some {xs : List String} {sel : String} {q : String × Nat}
    (h : (value_counts xs).find? (fun q => q.1 == sel) = some q) :
    q.1 = sel ∧ q.2 = xs.count sel ∧ sel ∈ xs := by
  have hpred : q.1 = sel := by
    have := List.find?_some h
    simpa using this
  obtain ⟨hcnt, hmem⟩ := mem_value_counts (List.mem_of_find?_eq_some h)
  exact ⟨hpred, by rw [hcnt, hpred], hpred ▸ hmem⟩

theorem find?_value_counts_none {xs : List String} {sel : String} (h : sel ∉ xs) :
    (value_counts xs).find? (fun q => q.1 == sel) = none := by
  cases hf : (value_counts xs).find? (fun q => q.1 == sel) with
  | none => rfl
  | some q =>
    obtain ⟨hq1, _, hmem⟩ := find?_value_counts_some hf
    exact absurd hmem h

theorem int_refines_numQ (s : String) (n : Int)
    (h : specIntegerParse s = some n) : parseNumQ s = some ((n : ℚ)) := by
  simp only [specIntegerParse] at h
  simp only [parseNumQ]
  rcases hp : splitSign (trimWS s.data) with ⟨neg, body⟩
  rw [hp] at h
  by_cases hcond : (!body.isEmpty && body.all digitChar) = true
  · have hb := hcond
    simp only [Bool.and_eq_true, Bool.not_eq_true', List.all_eq_true] at hb
    obtain ⟨hne, hdig⟩ := hb
    simp only [hcond, if_true, Option.some.injEq] at h
    simp only [takeWhile_eq_self_of_mem_true hdig, dropWhile_eq_nil_of_mem_true hdig,
      hne, Bool.false_eq_true, if_false, Option.map_some]
    subst h
    cases neg with
    | false => simp
    | true => simp
  · rw [if_neg hcond] at h
    exact absurd h (by simp)
example : coerceCell "g(12)" = some 12 := by decide
example : coerceCell "-" = none := by decide
example : (coerceCell "a(1.5)").isSome = true := by decide
example : cellInt32 "g(2147483648)" = -2147483648 := by decide
example : rowCompleteB ⟨"f", "s", "5", ["g(1)", "h(2)"]⟩ = true := by decide
example : rowCompleteB ⟨"f", "s", "-", ["g(1)"]⟩ = false := by decide

/-- C1: for every input table of the allele-validation stage, the two
outputs (clean, failed) exactly partition the scheme-matched subset:
clean is the coerced image of the complete rows, the complete rows
together with the failed rows are a permutation of the input (so every
row appears, with multiplicity, in exactly one side), and no row is in
both sides. -/
theorem c1_partition (df : List Row) :
    (clean_dataframe_alleles df).1 = (df.filter rowCompleteB).map coerceRow
  ∧ List.Perm (df.filter rowCompleteB ++ (clean_dataframe_alleles df).2) df
  ∧ ∀ r : Row, ¬(r ∈ df.filter rowCompleteB ∧ r ∈ (clean_dataframe_alleles df).2) := by
  refine ⟨rfl, List.filter_append_perm rowCompleteB df, ?_⟩
  rintro r ⟨h1, h2⟩
  simp only [clean_dataframe_alleles] at h2
  have hc := (List.mem_filter.mp h1).2
  have hn := (List.mem_filter.mp h2).2
  rw [hc] at hn
  simp at hn

theorem c1_partition_witness :
    ¬((⟨"f1", "A", "1", ["g(1)"]⟩ : Row) ∈
        [(⟨"f1", "A", "1", ["g(1)"]⟩ : Row)].filter rowCompleteB
      ∧ (⟨"f1", "A", "1", ["g(1)"]⟩ : Row) ∈
        (clean_dataframe_alleles [⟨"f1", "A", "1", ["g(1)"]⟩]).2) :=
  (c1_partition [⟨"f1", "A", "1", ["g(1)"]⟩]).2.2 ⟨"f1", "A", "1", ["g(1)"]⟩

/-- C2: a row of the scheme-matched table is placed in the clean output
when it is complete, is placed in the failed output exactly when it is
not complete, completeness means every locus cell coerces (is not a
missing marker) and the ST value is not the sentinel `-`, and replacing
any one locus cell by a non-coercible token makes the row incomplete. -/
theorem c2_membership (df : List Row) (r : Row) :
    (r ∈ df → rowCompleteB r = true → coerceRow r ∈ (clean_dataframe_alleles df).1)
  ∧ (r ∈ (clean_dataframe_alleles df).2 ↔ r ∈ df ∧ rowCompleteB r = false)
  ∧ (rowCompleteB r = true ↔ ((∀ c ∈ r.loci, (coerceCell c).isSome = true) ∧ r.st ≠ "-"))
  ∧ (∀ (i : Nat) (t : String), i < r.loci.length → coerceCell t = none →
      rowCompleteB (setLocus r i t) = false) := by
  refine ⟨?_, ?_, ?_, ?_⟩
  · intro hmem hcomp
    exact List.mem_map_of_mem coerceRow (List.mem_filter.mpr ⟨hmem, hcomp⟩)
  · simp only [clean_dataframe_alleles]
    rw [List.mem_filter]
    simp [Bool.not_eq_true']
  · simp [rowCompleteB, List.all_eq_true]
  · intro i t hi hnone
    have hi' : i < (r.loci.set i t).length := by simpa using hi
    have hall : ((r.loci.set i t).all (fun c => (coerceCell c).isSome)) = false := by
      cases hb : ((r.loci.set i t).all (fun c => (coerceCell c).isSome)) with
      | false => rfl
      | true =>
        have ht := List.all_eq_true.mp hb ((r.loci.set i t)[i]) (List.getElem_mem hi')
        rw [List.getElem_set_self hi', hnone] at ht
        simp at ht
    simp [rowCompleteB, setLocus, hall]

theorem c2_membership_witness :
    coerceRow ⟨"f", "A", "5", ["g(1)"]⟩ ∈
      (clean_dataframe_alleles [⟨"f", "A", "5", ["g(1)"]⟩]).1 :=
  (c2_membership [⟨"f", "A", "5", ["g(1)"]⟩] ⟨"f", "A", "5", ["g(1)"]⟩).1
    (List.mem_cons_self _ _) (by decide)

/-- C3 (counterexample): the claim states that each locus cell is parsed
as an integer after stripping, failures becoming a missing marker; at
the cell `a(1.5)` the stripped text `1.5` has no integer parse, yet the
code produces a (non-missing) numeric value, so the claim as stated is
false. -/
theorem c3_counterexample :
    ¬(coerceCell "a(1.5)"
      = (specIntegerParse (stripCell "a(1.5)")).map (fun n : Int => (n : ℚ))) := by
  intro h
  have h1 : specIntegerParse (stripCell "a(1.5)") = none := by decide
  rw [h1] at h
  simp only [Option.map_none'] at h
  have h2 : (coerceCell "a(1.5)").isSome = true := by decide
  rw [h] at h2
  simp at h2

/-- C3 (amended): each locus cell is coerced by stripping letters and
parentheses and parsing the remainder as a number (integers and decimal
fractions both parse); whenever the stripped text parses as an integer
the produced value is exactly that integer, and a cell whose stripped
text fails the numeric parse becomes a missing marker, with no
exception raised (the coercion is a total function). -/
theorem c3_amended_coercion (cell : String) :
    (∀ n : Int, specIntegerParse (stripCell cell) = some n → coerceCell cell = some ((n : ℚ)))
  ∧ (parseNumQ (stripCell cell) = none → coerceCell cell = none) := by
  constructor
  · intro n h
    exact int_refines_numQ (stripCell cell) n h
  · intro h
    exact h

theorem c3_amended_coercion_witness :
    specIntegerParse (stripCell "g(12)") = some 12
  ∧ coerceCell "g(12)" = some (((12 : Int) : ℚ)) :=
  ⟨by decide, (c3_amended_coercion "g(12)").1 12 (by decide)⟩

/-- C5: the scheme-partitioning stage returns (matched, mismatched)
where matched holds exactly the rows whose scheme equals the selected
label, mismatched holds exactly the remaining rows whose scheme is not
the sentinel `-`, the two outputs are disjoint, and matched together
with mismatched and the dropped sentinel rows is a permutation of the
input table. -/
theorem c5_scheme_partition (df : List Row) (s : String) :
    (∀ r : Row, r ∈ (clean_dataframe_scheme df s).1 ↔ r ∈ df ∧ r.scheme = s)
  ∧ (∀ r : Row, r ∈ (clean_dataframe_scheme df s).2 ↔
      r ∈ df ∧ r.scheme ≠ s ∧ r.scheme ≠ "-")
  ∧ (∀ r : Row, ¬(r ∈ (clean_dataframe_scheme df s).1 ∧ r ∈ (clean_dataframe_scheme df s).2))
  ∧ List.Perm ((clean_dataframe_scheme df s).1
      ++ ((clean_dataframe_scheme df s).2 ++ droppedSentinelRows df s)) df := by
  refine ⟨?_, ?_, ?_, ?_⟩
  · intro r
    simp [clean_dataframe_scheme, List.mem_filter]
  · intro r
    simp only [clean_dataframe_scheme, List.mem_filter, Bool.not_eq_true',
      beq_eq_false_iff_ne, and_assoc]
  · rintro r ⟨ha, hb⟩
    simp only [clean_dataframe_scheme] at ha hb
    have ha' := (List.mem_filter.mp ha).2
    have hb' := (List.mem_filter.mp (List.mem_filter.mp hb).1).2
    rw [ha'] at hb'
    simp at hb'
  · have h1 := List.filter_append_perm (fun r : Row => r.scheme == s) df
    have h2 := List.filter_append_perm (fun r : Row => !(r.scheme == "-"))
      (df.filter (fun r => !(r.scheme == s)))
    have hc : (df.filter (fun r => !(r.scheme == s))).filter
        (fun x => !!(x.scheme == "-"))
        = droppedSentinelRows df s :=
      List.filter_congr (fun x _ => Bool.not_not (x.scheme == "-"))
    rw [hc] at h2
    exact (List.Perm.append_left _ h2).trans h1

theorem c5_scheme_partition_witness :
    (⟨"f2", "B", "2", ["g(2)"]⟩ : Row) ∈
      (clean_dataframe_scheme
        [⟨"f1", "A", "1", ["g(1)"]⟩, ⟨"f2", "B", "2", ["g(2)"]⟩,
          ⟨"f3", "-", "-", ["-"]⟩] "A").2 :=
  ((c5_scheme_partition
      [⟨"f1", "A", "1", ["g(1)"]⟩, ⟨"f2", "B", "2", ["g(2)"]⟩,
        ⟨"f3", "-", "-", ["-"]⟩] "A").2.1 ⟨"f2", "B", "2", ["g(2)"]⟩).mpr
    (by refine ⟨by simp, by decide, by decide⟩)

/-- C4: in multi-file mode, if no file is usable (each is empty or has
the wrong shape) the ingestion stage returns the concatenation error
instead of an empty table, and as soon as one usable file exists the
stage succeeds, whatever defects the other files have. -/
theorem c4_ingestion_error (files : List (List (List String))) (n : Nat) :
    (read_mlst_files files n = Except.error "No objects to concatenate"
      ↔ ∀ f ∈ files, usableFile (n + 3) f = false)
  ∧ ((∃ f ∈ files, usableFile (n + 3) f = true) →
      ∃ rows, read_mlst_files files n = Except.ok rows) := by
  cases hfil : files.filter (usableFile (n + 3)) with
  | nil =>
    have hall : ∀ f ∈ files, usableFile (n + 3) f = false := by
      intro f hf
      have := List.filter_eq_nil_iff.mp hfil f hf
      simpa using this
    refine ⟨⟨fun _ => hall, fun _ => by simp [read_mlst_files, hfil]⟩, ?_⟩
    rintro ⟨f, hf, hu⟩
    rw [hall f hf] at hu
    exact absurd hu (by simp)
  | cons g t =>
    refine ⟨⟨fun h => ?_, fun hall => ?_⟩,
      fun _ => ⟨(g :: t).flatten, by simp [read_mlst_files, hfil]⟩⟩
    · exfalso
      simp [read_mlst_files, hfil] at h
    · exfalso
      have hg : g ∈ files.filter (usableFile (n + 3)) := by
        rw [hfil]
        exact List.mem_cons_self g t
      obtain ⟨hgf, hgu⟩ := List.mem_filter.mp hg
      rw [hall g hgf] at hgu
      exact absurd hgu (by simp)

theorem c4_ingestion_error_witness :
    (read_mlst_files [[], [["a", "b"]]] 1 = Except.error "No objects to concatenate")
  ∧ ∃ rows, read_mlst_files [[], [["f", "s", "1", "g(1)"]]] 1 = Except.ok rows :=
  ⟨(c4_ingestion_error [[], [["a", "b"]]] 1).1.mpr (by decide),
   (c4_ingestion_error [[], [["f", "s", "1", "g(1)"]]] 1).2
     ⟨[["f", "s", "1", "g(1)"]], by decide, by decide⟩⟩

/-- C6: whenever scheme selection returns a label with its warning flag,
the flag is set if and only if the percentage of rows bearing the
selected scheme, `count / total * 100`, is strictly below 75. -/
theorem c6_warning_iff (df : List Row) (arg : Option String) (sel : String) (warn : Bool)
    (h : select_scheme df arg = Except.ok (sel, warn)) :
    warn = true ↔
      (((df.map (fun r => r.scheme)).count sel : ℚ) / (df.length : ℚ)) * 100 < 75 := by
  cases arg with
  | some s =>
    simp only [select_scheme] at h
    cases hf : (value_counts (df.map (fun r => r.scheme))).find? (fun q => q.1 == s) with
    | none =>
      rw [hf] at h
      exact absurd h (by simp)
    | some q =>
      rw [hf] at h
      simp only [Except.ok.injEq, Prod.mk.injEq] at h
      obtain ⟨hsel, hwarn⟩ := h
      obtain ⟨hq1, hq2, _⟩ := find?_value_counts_some hf
      subst hsel
      rw [← hwarn, decide_eq_true_eq, hq2, value_counts_total, List.length_map]
  | none =>
    cases hvc : value_counts (df.map (fun r => r.scheme)) with
    | nil =>
      simp only [select_scheme, hvc] at h
      exact absurd h (by simp)
    | cons p rest =>
      simp only [select_scheme, hvc] at h
      have hfind : (p :: rest).find? (fun q => q.1 == p.1) = some p :=
        List.find?_cons_of_pos _ (by simp)
      rw [hfind] at h
      simp only [Except.ok.injEq, Prod.mk.injEq] at h
      obtain ⟨hsel, hwarn⟩ := h
      have hpmem : p ∈ value_counts (df.map (fun r => r.scheme)) := by
        rw [hvc]
        exact List.mem_cons_self p rest
      obtain ⟨hcnt, _⟩ := mem_value_counts hpmem
      have htot : ((p :: rest).map (fun p => p.2)).sum
          = (df.map (fun r => r.scheme)).length := by
        rw [← hvc]
        exact value_counts_total _
      subst hsel
      rw [← hwarn, decide_eq_true_eq, hcnt, htot, List.length_map]

theorem c6_warning_iff_witness :
    (true = true ↔
      ((([⟨"f1", "A", "1", ["g(1)"]⟩, ⟨"f2", "A", "2", ["g(2)"]⟩,
          ⟨"f3", "B", "3", ["g(3)"]⟩] : List Row).map (fun r => r.scheme)).count "A" : ℚ)
        / ((([⟨"f1", "A", "1", ["g(1)"]⟩, ⟨"f2", "A", "2", ["g(2)"]⟩,
          ⟨"f3", "B", "3", ["g(3)"]⟩] : List Row).length : ℚ)) * 100 < 75) :=
  c6_warning_iff
    [⟨"f1", "A", "1", ["g(1)"]⟩, ⟨"f2", "A", "2", ["g(2)"]⟩, ⟨"f3", "B", "3", ["g(3)"]⟩]
    none "A" true
    (by
      simp [select_scheme, value_counts, valueCountsPairs, uniqueFirst,
        sortCountsDesc, insertDesc, List.find?]
      norm_num)

/-- C7: scheme selection with no explicit scheme is deterministic; the
selection is a pure function of the table, so two runs on the same
table yield the same label. -/
theorem c7_select_deterministic (df₁ df₂ : List Row) (h : df₁ = df₂) :
    select_scheme df₁ none = select_scheme df₂ none := by
  rw [h]

theorem c7_select_deterministic_witness :
    select_scheme [⟨"f1", "A", "1", ["g(1)"]⟩] none
      = select_scheme [⟨"f1", "A", "1", ["g(1)"]⟩] none :=
  c7_select_deterministic [⟨"f1", "A", "1", ["g(1)"]⟩] [⟨"f1", "A", "1", ["g(1)"]⟩] rfl

/-- C10: when an explicitly supplied scheme label occurs nowhere in the
scheme column, the selection stage fails (the `int(...)` conversion of
an empty selection raises) instead of returning a label or reporting a
percentage. -/
theorem c10_absent_scheme_error (df : List Row) (s : String)
    (h : s ∉ df.map (fun r => r.scheme)) :
    select_scheme df (some s) = Except.error SchemeError.schemeNotFound := by
  simp only [select_scheme]
  rw [find?_value_counts_none h]

theorem c10_absent_scheme_error_witness :
    select_scheme [⟨"f1", "A", "1", ["g(1)"]⟩] (some "Z")
      = Except.error SchemeError.schemeNotFound :=
  c10_absent_scheme_error [⟨"f1", "A", "1", ["g(1)"]⟩] "Z" (by decide)

/-- C8 (counterexample): the claim promises the clean locus value equals
the designation suffix for every integer allele id with no precision
loss; for the designation `g(2147483648)` the clean value is the
int32-wrapped `-2147483648`, not `2147483648`, so the claim as stated
is false. -/
theorem c8_counterexample :
    (clean_dataframe_alleles [⟨"f", "A", "5", ["g(2147483648)"]⟩]).1
      = [⟨"f", "A", "5", [-2147483648]⟩]
  ∧ (clean_dataframe_alleles [⟨"f", "A", "5", ["g(2147483648)"]⟩]).1
      ≠ [⟨"f", "A", "5", [2147483648]⟩] :=
  ⟨by decide, by decide⟩

/-- C8 (amended): for every scheme-matched row whose locus designations
all have the form `gene(alleleId)` with a purely alphabetic gene name
and a decimal allele id below `2 ^ 31`, the row is complete and its
clean output row carries exactly those allele ids as integers, with no
precision loss. -/
theorem c8_roundtrip_amended (df : List Row) (r : Row)
    (specs : List (List Char × List Char))
    (hmem : r ∈ df) (hst : r.st ≠ "-")
    (hl : r.loci = specs.map (fun p => mkCell p.1 p.2))
    (hg : ∀ p ∈ specs, ∀ c ∈ p.1, alphaChar c = true)
    (hd : ∀ p ∈ specs, p.2 ≠ [] ∧ (∀ c ∈ p.2, digitChar c = true)
      ∧ digitsVal p.2 < 2 ^ 31) :
    coerceRow r ∈ (clean_dataframe_alleles df).1
  ∧ (coerceRow r).loci = specs.map (fun p => ((digitsVal p.2 : Int))) := by
  have hcomplete : rowCompleteB r = true := by
    simp only [rowCompleteB, Bool.and_eq_true, List.all_eq_true]
    constructor
    · intro c hc
      rw [hl] at hc
      obtain ⟨p, hp, hcc⟩ := List.mem_map.mp hc
      obtain ⟨h0, hdig, _⟩ := hd p hp
      rw [← hcc, coerce_mkCell (hg p hp) h0 hdig]
      rfl
    · simp [hst]
  refine ⟨List.mem_map_of_mem coerceRow (List.mem_filter.mpr ⟨hmem, hcomplete⟩), ?_⟩
  simp only [coerceRow]
  rw [hl, List.map_map]
  refine List.map_congr_left ?_
  intro p hp
  obtain ⟨h0, hdig, hlt⟩ := hd p hp
  simp only [Function.comp_apply]
  exact cellInt32_mkCell (hg p hp) h0 hdig hlt

theorem c8_roundtrip_amended_witness :
    coerceRow ⟨"f", "A", "5", ["g(12)"]⟩ ∈
      (clean_dataframe_alleles [⟨"f", "A", "5", ["g(12)"]⟩]).1
  ∧ (coerceRow ⟨"f", "A", "5", ["g(12)"]⟩).loci
      = [((['g'], ['1', '2']) : List Char × List Char)].map
          (fun p => ((digitsVal p.2 : Int))) :=
  c8_roundtrip_amended [⟨"f", "A", "5", ["g(12)"]⟩] ⟨"f", "A", "5", ["g(12)"]⟩
    [(['g'], ['1', '2'])] (List.mem_cons_self _ _) (by decide) (by decide)
    (by decide) (by decide)

theorem zip_filter_keep (names : List String) :
    ∀ (hs vs : List String), hs.length = vs.length →
      (∀ x ∈ hs, names.contains x = false) →
      ((hs.zip vs).filter (fun p => !names.contains p.1)).map (fun p => p.2) = vs := by
  intro hs
  induction hs with
  | nil =>
    intro vs hlen _
    cases vs with
    | nil => rfl
    | cons v vs' => simp at hlen
  | cons a hs' ih =>
    intro vs hlen hns
    cases vs with
    | nil => simp at hlen
    | cons v vs' =>
      have ha := hns a (List.mem_cons_self a hs')
      simp only [List.zip_cons_cons, List.filter_cons, ha, Bool.not_false, if_true,
        List.map_cons]
      rw [ih vs' (by simpa using hlen) (fun x hx => hns x (List.mem_cons_of_mem a hx))]

/-- C9: with the identification-columns flag false, the output stage
drops exactly the `file` and `scheme` columns from the clean table
before writing, while the mismatched-scheme and failed-allele tables
keep all their columns unchanged whatever the flag is. -/
theorem c9_output_columns (rest : List String) (rows : List (List String))
    (m f : Table) (h1 : "file" ∉ rest) (h2 : "scheme" ∉ rest)
    (hlen : ∀ row ∈ rows, row.length = 2 + rest.length) :
    writeOutputs ⟨"file" :: "scheme" :: rest, rows⟩ m f false
      = (⟨rest, rows.map (fun row => row.drop 2)⟩, m, f)
  ∧ (∀ b : Bool, (writeOutputs ⟨"file" :: "scheme" :: rest, rows⟩ m f b).2.1 = m
      ∧ (writeOutputs ⟨"file" :: "scheme" :: rest, rows⟩ m f b).2.2 = f) := by
  have hcont : ∀ x ∈ rest, (["file", "scheme"].contains x) = false := by
    intro x hx
    have hne1 : (x == "file") = false := by
      simp only [beq_eq_false_iff_ne]
      intro hcx
      exact h1 (hcx ▸ hx)
    have hne2 : (x == "scheme") = false := by
      simp only [beq_eq_false_iff_ne]
      intro hcx
      exact h2 (hcx ▸ hx)
    simp [List.contains, List.elem, hne1, hne2]
  have hdrop : dropColumns ⟨"file" :: "scheme" :: rest, rows⟩ ["file", "scheme"]
      = ⟨rest, rows.map (fun row => row.drop 2)⟩ := by
    simp only [dropColumns]
    have hhd : ("file" :: "scheme" :: rest).filter
        (fun x => !(["file", "scheme"].contains x)) = rest := by
      simp only [List.filter_cons]
      have hb1 : (!(["file", "scheme"].contains "file")) = false := by decide
      have hb2 : (!(["file", "scheme"].contains "scheme")) = false := by decide
      rw [hb1, hb2]
      simp only [Bool.false_eq_true, if_false]
      exact List.filter_eq_self.mpr (fun x hx => by rw [hcont x hx]; rfl)
    have hrows : rows.map (fun row =>
        ((("file" :: "scheme" :: rest).zip row).filter
          (fun p => !(["file", "scheme"].contains p.1))).map (fun p => p.2))
        = rows.map (fun row => row.drop 2) := by
      refine List.map_congr_left ?_
      intro row hrow
      have hrl := hlen row hrow
      cases row with
      | nil =>
        exfalso
        simp only [List.length_nil] at hrl
        omega
      | cons a row1 =>
        cases row1 with
        | nil =>
          exfalso
          simp only [List.length_cons, List.length_nil] at hrl
          omega
        | cons b rrest =>
          have hrl' : rrest.length = rest.length := by
            simp only [List.length_cons] at hrl
            omega
          have hb1 : (!(["file", "scheme"].contains "file")) = false := by decide
          have hb2 : (!(["file", "scheme"].contains "scheme")) = false := by decide
          simp only [List.zip_cons_cons, List.filter_cons, hb1, hb2,
            Bool.false_eq_true, if_false, List.drop_succ_cons, List.drop_zero]
          exact zip_filter_keep ["file", "scheme"] rest rrest hrl'.symm hcont
    rw [Table.mk.injEq]
    exact ⟨hhd, hrows⟩
  refine ⟨?_, ?_⟩
  · simp only [writeOutputs, Bool.false_eq_true, if_false, hdrop]
  · intro b
    cases b <;> exact ⟨rfl, rfl⟩

theorem c9_output_columns_witness :
    writeOutputs ⟨["file", "scheme", "ST", "gene1"], [["f", "s", "1", "2"]]⟩
        ⟨["m"], []⟩ ⟨["x"], []⟩ false
      = (⟨["ST", "gene1"], [["1", "2"]]⟩, ⟨["m"], []⟩, ⟨["x"], []⟩) := by
  have h := (c9_output_columns ["ST", "gene1"] [["f", "s", "1", "2"]]
    ⟨["m"], []⟩ ⟨["x"], []⟩ (by decide) (by decide) (by decide)).1
  simpa using h

end MlstToPhyloviz
